import Mathlib

/-!
Verification development for the gostage pipeline library.

The Go sources are shallowly embedded as executable Lean definitions:

* `supervisor.go` — `Supervise` / `monitor` / `work` become `Supervise` /
  `monitorLoop` / `workRun`.  The Go monitor counts `restartCount` upwards and
  stops once `restartCount > maxRestart`; here the same loop is driven by the
  remaining budget `maxRestart - restartCount` so that the recursion is
  structural.  Crucially, the Go constructor for `supervisor` never assigns the
  `logger` field, so the recover handler runs with a nil logger; this is kept
  faithfully as `loggerPresent = false`.
* `gostage.go` — the builder (`findRoot`, `findNext`, `buildLinkedWorkers`),
  channel wiring (`setupChannels`), instance startup (`startWorkers` with the
  `Size`/`Restart` defaulting and the reflective `callWorkerCreate`), the
  per-position worker loops of `runWorker`, and the shutdown protocol of
  `ensureAllWorkerStopped` / `Run`.

Go channels are represented by allocation identifiers (`Nat`); `interface{}`
values by `Option Nat` (`none` is Go's `nil`); Go `panic` by `Except GoCrash`;
observable actions of the concurrent loops by event lists (`Ev`).
-/

namespace Gostage

/-! ## Supervisor (`supervisor.go`) -/

/-- Result of one invocation of `supervisor.work`: the worker function either
returns normally, or it panics.  If it panics, the deferred recover handler
calls `s.logger.Error`; when the logger was assigned this produces a restart
signal on `restartChan`, but when the logger is the nil interface (as it is for
every supervisor built by `Supervise`, whose constructor omits the field) the
call itself panics and the goroutine crashes. -/
inductive WorkResult where
  | completed
  | restartSignal
  | crashed
  deriving DecidableEq, Repr

/-- One run of `supervisor.work`, for the `attempt`-th invocation of the
worker function.  `panics attempt` says whether this invocation panics. -/
def workRun (loggerPresent : Bool) (panics : Nat → Bool) (attempt : Nat) :
    WorkResult :=
  if panics attempt then
    (if loggerPresent then WorkResult.restartSignal else WorkResult.crashed)
  else WorkResult.completed

/-- Terminal outcome of one supervised unit, remembering how many times the
worker function was invoked in total. -/
inductive SupOutcome where
  | normal (attempts : Nat)
  | outOfSupervision (attempts : Nat)
  | nilLoggerCrash (attempts : Nat)
  deriving DecidableEq, Repr

/-- The `supervisor.monitor` loop.  The Go code increments `restartCount` on
every restart signal and emits `ErrSupervision` once `restartCount >
maxRestart`; the argument `remaining` is the budget `maxRestart - restartCount`
of restarts still allowed, so `remaining = 0` is exactly the exhaustion test
`restartCount + 1 > maxRestart`. -/
def monitorLoop (loggerPresent : Bool) (panics : Nat → Bool) :
    Nat → Nat → SupOutcome
  | attempt, 0 =>
    match workRun loggerPresent panics attempt with
    | WorkResult.completed => SupOutcome.normal (attempt + 1)
    | WorkResult.crashed => SupOutcome.nilLoggerCrash (attempt + 1)
    | WorkResult.restartSignal => SupOutcome.outOfSupervision (attempt + 1)
  | attempt, r + 1 =>
    match workRun loggerPresent panics attempt with
    | WorkResult.completed => SupOutcome.normal (attempt + 1)
    | WorkResult.crashed => SupOutcome.nilLoggerCrash (attempt + 1)
    | WorkResult.restartSignal => monitorLoop loggerPresent panics (attempt + 1) r

/-- `Supervise(workerFunc, maxRestart, logger)`: builds the supervisor — with
the `logger` field left unassigned (nil), exactly as in the Go constructor —
and runs the monitor.  `panics` describes which invocations of the worker
function panic. -/
def Supervise (panics : Nat → Bool) (maxRestart : Int) : SupOutcome :=
  monitorLoop false panics 0 maxRestart.toNat

/-! ## Config defaulting (`startWorkers`, gostage.go lines 198-227) -/

/-- Effective instance count of a stage: `size := DefaultSize; if
lw.Size > 0 { size = lw.Size }`. -/
def effectiveSize (dflt cfgSize : Int) : Int :=
  if cfgSize > 0 then cfgSize else dflt

/-- Effective restart bound of a stage: `restart := DefaultRestart; if
lw.Restart > 0 { restart = lw.Restart }`. -/
def effectiveRestart (dflt cfgRestart : Int) : Int :=
  if cfgRestart > 0 then cfgRestart else dflt

/-! ## Instance startup (`GoStage.startWorkers`, `callWorkerCreate`) -/

/-- A Go runtime panic, carrying the panic message. -/
structure GoCrash where
  msg : String
  deriving DecidableEq, Repr

/-- The fields of a `Config` that `startWorkers` reads: `Size`, `Restart`, and
whether the worker value exposes a `Create` method (probed by reflection in
`callWorkerCreate`). -/
structure StageCfg where
  size : Int
  restart : Int
  hasCreate : Bool
  deriving DecidableEq, Repr

/-- `callWorkerCreate`: panics with `"worker need Create method"` when the
worker value has no `Create` method, otherwise returns the fresh worker. -/
def callWorkerCreate (stage : StageCfg) : Except GoCrash Unit :=
  if stage.hasCreate then Except.ok () else Except.error ⟨"worker need Create method"⟩

/-- One supervised stage instance as registered by `startWorkers`: its stage
index `i`, its instance index `n`, the identifier of the error channel
allocated by its `Supervise` call, and the restart bound passed to
`Supervise`. -/
structure SupItem where
  stageIdx : Nat
  instIdx : Nat
  errChanId : Nat
  restartBound : Int
  deriving DecidableEq, Repr

/-- The mutable `GoStage` state that `startWorkers` updates: the list of
per-instance stop channels (`s.stopChan`), the single `s.errChan` field (note:
one field, overwritten by each `Supervise` call), a fresh-channel allocation
counter, and the list of supervised instances started so far. -/
structure StartSt where
  stopChans : List Nat
  errChan : Nat
  nextId : Nat
  items : List SupItem
  deriving DecidableEq, Repr

/-- The inner `for n := 0; n < size; n++` loop of `startWorkers` for the stage
at index `i`, with `remaining` iterations left (initially `size.toNat`).
Each iteration: for `n ≠ 0` obtain a fresh worker via `callWorkerCreate`
(propagating its panic); allocate a stop channel and append it to
`s.stopChan`; compute the restart bound; call `Supervise`, which allocates a
fresh error channel, and overwrite `s.errChan` with it. -/
def startInstLoop (dRestart : Int) (stage : StageCfg) (i : Nat) :
    Nat → Nat → StartSt → Except GoCrash StartSt
  | 0, _, st => Except.ok st
  | remaining + 1, n, st =>
    match (if n ≠ 0 then callWorkerCreate stage else Except.ok ()) with
    | Except.error e => Except.error e
    | Except.ok _ =>
      let stopId := st.nextId
      let errId := st.nextId + 1
      startInstLoop dRestart stage i remaining (n + 1)
        { stopChans := st.stopChans ++ [stopId]
          errChan := errId
          nextId := st.nextId + 2
          items := st.items ++ [⟨i, n, errId, effectiveRestart dRestart stage.restart⟩] }

/-- The outer loop of `startWorkers` over the linked workers, stage index `i`
running over the list. -/
def startWorkersLoop (dSize dRestart : Int) :
    List StageCfg → Nat → StartSt → Except GoCrash StartSt
  | [], _, st => Except.ok st
  | stage :: rest, i, st =>
    match startInstLoop dRestart stage i (effectiveSize dSize stage.size).toNat 0 st with
    | Except.error e => Except.error e
    | Except.ok st' => startWorkersLoop dSize dRestart rest (i + 1) st'

/-- `startWorkers` on the linked-worker list, starting from the state that
`New` set up: no stop channels, `errChan` is the channel allocated by `New`
(identifier `0`), and no instances yet.  `dSize` and `dRestart` are the
process-wide `DefaultSize` and `DefaultRestart`. -/
def startWorkers (dSize dRestart : Int) (stages : List StageCfg) :
    Except GoCrash StartSt :=
  startWorkersLoop dSize dRestart stages 0 ⟨[], 0, 1, []⟩

/-! ## Pipeline builder (`findRoot`, `findNext`, `buildLinkedWorkers`) -/

/-- The fields of a `Config` that the builder reads: the identity of the
`Worker` value and the identity of the `SubscribeTo` value (`none` is Go's
nil interface).  Worker values are compared by `reflect.DeepEqual` on their
`reflect.Value`s, i.e. by the identity of the wrapped value, modelled by a
numeric identity. -/
structure BCfg where
  workerId : Nat
  subscribeTo : Option Nat
  deriving DecidableEq, Repr

/-- `findRoot`: the first config whose `SubscribeTo` is nil, or nil. -/
def findRoot : List BCfg → Option BCfg
  | [] => none
  | c :: rest => if c.subscribeTo = none then some c else findRoot rest

/-- `findNext`: the first config whose `SubscribeTo` equals the given
config's `Worker`, or nil. -/
def findNext (cur : BCfg) : List BCfg → Option BCfg
  | [] => none
  | c :: rest => if c.subscribeTo = some cur.workerId then some c else findNext cur rest

/-- The `for config := s.findRoot(); config != nil; config = s.findNext(config)`
loop of `buildLinkedWorkers`.  The Go loop has no termination check at all and
diverges on a cyclic subscription graph; the fuel argument makes the embedding
total, with `none` standing for a run that exceeds the fuel (divergence). -/
def buildLoop (cfgs : List BCfg) : Nat → Option BCfg → Option (List BCfg)
  | _, none => some []
  | 0, some _ => none
  | fuel + 1, some c => (buildLoop cfgs fuel (findNext c cfgs)).map (c :: ·)

/-- `buildLinkedWorkers`: follow the subscription links starting from
`findRoot`, appending each visited config to the linked-worker list. -/
def buildLinkedWorkers (fuel : Nat) (cfgs : List BCfg) : Option (List BCfg) :=
  buildLoop cfgs fuel (findRoot cfgs)

/-! ## Channel wiring (`GoStage.setupChannels`) -/

/-- A linked worker's channel fields: `in` and `out`, each either nil
(`none`) or a channel identifier. -/
structure LW where
  inp : Option Nat
  out : Option Nat
  deriving DecidableEq, Repr

/-- The `for i := 0; i < n; i++` loop of `setupChannels` with `remaining`
iterations left (initially `n`).  `prevOut` is `linkedWorkers[i-1].out`, `c`
the allocation counter for `make(chan interface{})`.  Branching exactly as in
the Go source: `i == 0` allocates an out channel only; `i == n-1` takes the
previous out channel as its in channel and allocates nothing; every other `i`
does both.  Returns the linked workers and the number of channels made. -/
def wireLoop (n : Nat) : Nat → Nat → Option Nat → Nat → List LW × Nat
  | 0, _, _, c => ([], c)
  | remaining + 1, i, prevOut, c =>
    if i = 0 then
      let r := wireLoop n remaining (i + 1) (some c) (c + 1)
      (⟨none, some c⟩ :: r.1, r.2)
    else if i = n - 1 then
      let r := wireLoop n remaining (i + 1) prevOut c
      (⟨prevOut, none⟩ :: r.1, r.2)
    else
      let r := wireLoop n remaining (i + 1) (some c) (c + 1)
      (⟨prevOut, some c⟩ :: r.1, r.2)

/-- `setupChannels` on a chain of `n` linked workers: the resulting channel
fields of each worker, together with the number of channels allocated. -/
def setupChannels (n : Nat) : List LW × Nat :=
  wireLoop n n 0 none 0

/-! ## Worker loops (`GoStage.runWorker`) and run lifecycle (`Run`,
`ensureAllWorkerStopped`) -/

/-- A Go `interface{}` value: `none` is nil. -/
abbrev Val := Option Nat

/-- The error component of a `HandleEvent` return: `ErrNoData`, `ErrQuit`, or
any other non-nil error. -/
inductive GoErr where
  | noData
  | quit
  | other
  deriving DecidableEq, Repr

/-- A `HandleEvent` return value: an output `interface{}` and an error
(`none` is a nil error). -/
abbrev HEResult := Val × Option GoErr

/-- Observable actions of the worker loops and of the orchestrator. -/
inductive Ev where
  | invoke
  | send (v : Val)
  | sleep
  | publishQuit
  | logErr
  | logFatal
  | cleanup
  | stopReq (i : Nat)
  | ack (i : Nat)
  | callback
  deriving DecidableEq, Repr

/-- Count the events satisfying `p`. -/
def countEv (p : Ev → Bool) (evs : List Ev) : Nat :=
  evs.countP p

/-- Whether an event is a transform invocation. -/
def isInvoke : Ev → Bool
  | Ev.invoke => true
  | _ => false

/-- Whether an event is a send on an outbound channel. -/
def isSend : Ev → Bool
  | Ev.send _ => true
  | _ => false

/-- Whether an event is a stop request. -/
def isStopReq : Ev → Bool
  | Ev.stopReq _ => true
  | _ => false

/-- Whether an event is a stop acknowledgment. -/
def isAck : Ev → Bool
  | Ev.ack _ => true
  | _ => false

/-- Whether an event is the completion-callback invocation. -/
def isCallback : Ev → Bool
  | Ev.callback => true
  | _ => false

/-- One iteration of the root (`i == 0`) branch of `runWorker`, taken when no
stop request is pending (the `default` branch of the outer select).  `cnt` is
`errNoDataCount`, `threshold` is `s.noDataCount`.  Returns the events of the
iteration, the new counter, and whether the loop has published `ErrQuit` on
the quit channel and is now blocked waiting for a stop request. -/
def rootIter (threshold : Int) (cnt : Int) (r : HEResult) : List Ev × Int × Bool :=
  match r.2 with
  | none => ([Ev.invoke, Ev.send r.1], cnt, false)
  | some GoErr.noData =>
    if cnt + 1 ≥ threshold then ([Ev.invoke, Ev.sleep], 0, false)
    else ([Ev.invoke], cnt + 1, false)
  | some GoErr.quit => ([Ev.invoke, Ev.publishQuit], cnt, true)
  | some GoErr.other => ([Ev.invoke, Ev.logErr], cnt, false)

/-- The root loop run over a list of successive `HandleEvent` results, under a
schedule in which no stop request arrives while the loop is producing.  The
loop stops consuming results as soon as one invocation returns `ErrQuit`
(after publishing it the Go loop blocks in a select that only accepts a stop
request); results after the quit are never invoked. -/
def rootLoop (threshold : Int) (cnt : Int) : List HEResult → List Ev × Int × Bool
  | [] => ([], cnt, false)
  | r :: rs =>
    let step := rootIter threshold cnt r
    if step.2.2 then (step.1, step.2.1, true)
    else
      let rest := rootLoop threshold step.2.1 rs
      (step.1 ++ rest.1, rest.2)

/-- One iteration of the middle (pass-through) branch of `runWorker` on a
received input: invoke `HandleEvent`, log if the error is non-nil, and send
the output on the outbound channel in either case. -/
def middleIter (f : Val → HEResult) (input : Val) : List Ev :=
  let r := f input
  [Ev.invoke] ++ (if (r.2).isSome then [Ev.logErr] else []) ++ [Ev.send r.1]

/-- The middle loop run over the list of inputs received on the inbound
channel, under a schedule in which the stop request arrives after all inputs
were handled. -/
def middleLoop (f : Val → HEResult) (inputs : List Val) : List Ev :=
  inputs.flatMap (middleIter f)

/-- The values sent on the outbound channel in an event list, in order. -/
def sentVals (evs : List Ev) : List Val :=
  evs.filterMap fun e =>
    match e with
    | Ev.send v => some v
    | _ => none

/-- What one running instance does when its stop request is served: the
orchestrator sends on the instance's stop channel, the instance calls
`callWorkerClose` and acknowledges on the private `done` channel. -/
def workerStopBlock (i : Nat) : List Ev :=
  [Ev.stopReq i, Ev.cleanup, Ev.ack i]

/-- The `ensureAllWorkerStopped` loop over the stop-channel list, with the
`confirm` counter and the early return once `confirm` equals the total number
of stop channels. -/
def ensureLoop (total : Nat) : Nat → List Nat → List Ev
  | _, [] => []
  | confirm, i :: rest =>
    workerStopBlock i ++
      (if confirm + 1 = total then [] else ensureLoop total (confirm + 1) rest)

/-- `ensureAllWorkerStopped` with `n` running instances whose stop channels
were created in index order. -/
def ensureAllWorkerStopped (n : Nat) : List Ev :=
  ensureLoop n 0 (List.range n)

/-- The four terminating events `Run` selects on. -/
inductive TermCause where
  | ctxDone
  | osSignal
  | quitNotice
  | fatalErr
  deriving DecidableEq, Repr

/-- The events of `Run`'s select statement: a quit notification is logged via
`logger.Error`, a fatal supervision error via `logger.Fatal` (the standard
logger's `Fatal` only prints; it does not exit). -/
def runSelectEvents : TermCause → List Ev
  | TermCause.ctxDone => []
  | TermCause.osSignal => []
  | TermCause.quitNotice => [Ev.logErr]
  | TermCause.fatalErr => [Ev.logFatal]

/-- The orchestrator events of one `Run` invocation with `n` running
instances, from the moment its select fires: handle the terminating event,
run `ensureAllWorkerStopped`, then invoke the caller-supplied callback. -/
def RunTrace (cause : TermCause) (n : Nat) : List Ev :=
  runSelectEvents cause ++ ensureAllWorkerStopped n ++ [Ev.callback]

/-- The full serialized trace of a run whose root producer eventually returns
`ErrQuit` (and no cancellation or OS signal occurs): the root loop's events,
then `Run` receives the quit notification and shuts the `n` instances down. -/
def quitRunTrace (threshold : Int) (results : List HEResult) (n : Nat) : List Ev :=
  (rootLoop threshold 0 results).1 ++ RunTrace TermCause.quitNotice n

/-! ## Claim C1 (supervisor restarts) -/

/-- Claim C1: the spec says a panicking unit of work is logged and restarted,
with exactly `maxRestart + 1` invocation attempts before `ErrSupervision` is
emitted.  The code cannot do this: `Supervise` never assigns the `logger`
field of the `supervisor` it builds, so the recover handler's
`s.logger.Error` call panics on the nil logger at the very first fault — one
single attempt, no log, no restart, no `ErrSupervision`.  With the logger
assigned (`monitorLoop true`), the monitor would indeed allow
`maxRestart + 1 = 3` attempts before reporting exhaustion. -/
theorem c1_supervisor_nil_logger_crash :
    Supervise (fun _ => true) 2 = SupOutcome.nilLoggerCrash 1 ∧
    monitorLoop true (fun _ => true) 0 (Int.toNat 2) = SupOutcome.outOfSupervision 3 :=
  ⟨rfl, rfl⟩

/-! ## Claim C10 (per-stage Size/Restart defaulting) -/

/-- Claim C10: the per-stage `Size` and `Restart` fields override the
process-wide defaults only when strictly positive; a descriptor with
`Size = 0` or `Restart = 0` uses the default, so `Restart = 0` cannot express
a restart bound of zero.  The last conjunct runs `startWorkers` on a
one-stage pipeline with `Restart = 0` under process default `d`: the single
supervised instance gets restart bound `d`. -/
theorem c10_defaulting (d r : Int) :
    effectiveRestart d 0 = d ∧
    effectiveSize d 0 = d ∧
    (0 < r → effectiveRestart d r = r) ∧
    (0 < d → effectiveRestart d r ≠ 0) ∧
    startWorkers 1 d [⟨0, 0, false⟩] = Except.ok ⟨[1], 2, 3, [⟨0, 0, 2, d⟩]⟩ := by
  refine ⟨by simp [effectiveRestart], by simp [effectiveSize], ?_, ?_, ?_⟩
  · intro hr
    simp [effectiveRestart, hr]
  · intro hd
    unfold effectiveRestart
    split <;> omega
  · rfl

/-- Witness for C10 at `d = 5`, `r = 7`. -/
theorem c10_defaulting_witness :
    effectiveRestart 5 0 = 5 ∧
    effectiveSize 5 0 = 5 ∧
    ((0 : Int) < 7) ∧
    effectiveRestart 5 7 = 7 ∧
    effectiveRestart 5 7 ≠ 0 ∧
    startWorkers 1 5 [⟨0, 0, false⟩] = Except.ok ⟨[1], 2, 3, [⟨0, 0, 2, 5⟩]⟩ :=
  ⟨(c10_defaulting 5 7).1, (c10_defaulting 5 7).2.1, by decide,
    (c10_defaulting 5 7).2.2.1 (by decide), (c10_defaulting 5 7).2.2.2.1 (by decide),
    (c10_defaulting 5 7).2.2.2.2⟩

/-! ## Claim C2 (per-instance error channels) -/

/-- Counterexample to claim C2: in a run with two supervised instances, each
`Supervise` call does allocate its own error channel (ids 2 and 4), but
`startWorkers` stores each result into the single `s.errChan` field, so after
startup the orchestrator holds only the channel of the last-started instance
(id 4).  The first instance's channel (id 2) differs from the one `Run`'s
fatal-error wait selects on, so its supervision exhaustion is never
received. -/
theorem c2_counterexample :
    ∃ st : StartSt, startWorkers 1 1 [⟨0, 0, false⟩, ⟨0, 0, false⟩] = Except.ok st ∧
      ∃ it ∈ st.items, it.errChanId ≠ st.errChan := by
  refine ⟨⟨[1, 3], 4, 5, [⟨0, 0, 2, 1⟩, ⟨1, 0, 4, 1⟩]⟩, rfl, ⟨0, 0, 2, 1⟩, by decide, by decide⟩

/-! ## Claim C3 (root-ambiguity error) -/

/-- Counterexample to claim C3: the builder never fails.  With zero rootless
descriptors (`[⟨1, some 2⟩, ⟨2, some 1⟩]`) `findRoot` returns nil and
`buildLinkedWorkers` silently builds the empty chain; with two rootless
descriptors (`[⟨1, none⟩, ⟨2, none⟩]`) `findRoot` silently picks the first
one and the chain consists of it alone.  No `ErrNoRoot`-class condition
exists anywhere in the code. -/
theorem c3_counterexample :
    buildLinkedWorkers 5 [⟨1, some 2⟩, ⟨2, some 1⟩] = some [] ∧
    findRoot [⟨1, none⟩, ⟨2, none⟩] = some ⟨1, none⟩ ∧
    buildLinkedWorkers 5 [⟨1, none⟩, ⟨2, none⟩] = some [⟨1, none⟩] := by
  decide

/-! ## Claim C4 (missing Create capability) -/

/-- Counterexample to claim C4: a three-stage pipeline whose middle stage has
`Size = 3` but no `Create` method.  Startup does not report a configuration
error: `callWorkerCreate` raises the runtime panic
`"worker need Create method"` while starting the middle stage's second
instance. -/
theorem c4_counterexample :
    startWorkers 1 1 [⟨0, 0, false⟩, ⟨3, 0, false⟩, ⟨0, 0, false⟩] =
      Except.error ⟨"worker need Create method"⟩ :=
  rfl

/-! ## Claim C5 (channel wiring) -/

/-- Counterexample to claim C5: for a chain of `N = 1` linked stages, channel
wiring takes the `i == 0` branch and allocates an outbound channel for the
single stage, so it creates `1 ≠ N - 1 = 0` channels and the terminal stage
(which is also the root) does have an outbound channel. -/
theorem c5_counterexample :
    setupChannels 1 = ([⟨none, some 0⟩], 1) ∧
    (setupChannels 1).2 ≠ 1 - 1 ∧
    ((setupChannels 1).1[0]?).map LW.out ≠ some none := by
  decide

/-- `findRoot` is a first-match search for a descriptor without upstream. -/
theorem findRoot_eq_find? (cfgs : List BCfg) :
    findRoot cfgs = cfgs.find? (fun c => c.subscribeTo.isNone) := by
  induction cfgs with
  | nil => rfl
  | cons c rest ih =>
    by_cases h : c.subscribeTo = none
    · rw [List.find?_cons_of_pos _ (by simp [h])]
      simp [findRoot, h]
    · rw [List.find?_cons_of_neg _ (by simp [h])]
      simp [findRoot, h, ih]

/-- Amended claim C3: the builder never fails on root ambiguity.  `findRoot`
is a first-match search: with several rootless descriptors it silently picks
the first; with none it returns nil and `buildLinkedWorkers` silently
produces the empty chain. -/
theorem c3_amended (cfgs : List BCfg) (fuel : Nat) :
    findRoot cfgs = cfgs.find? (fun c => c.subscribeTo.isNone) ∧
    ((∀ c ∈ cfgs, c.subscribeTo ≠ none) → buildLinkedWorkers fuel cfgs = some []) := by
  refine ⟨findRoot_eq_find? cfgs, ?_⟩
  intro h
  have hroot : findRoot cfgs = none := by
    rw [findRoot_eq_find?, List.find?_eq_none]
    intro c hc
    simpa [Option.isNone_iff_eq_none] using h c hc
  unfold buildLinkedWorkers
  rw [hroot]
  cases fuel <;> rfl

/-- Witness for the amended claim C3 on a rootless descriptor set. -/
theorem c3_amended_witness :
    findRoot [⟨1, some 2⟩, ⟨2, some 1⟩] =
      List.find? (fun c => c.subscribeTo.isNone) [⟨1, some 2⟩, ⟨2, some 1⟩] ∧
    buildLinkedWorkers 7 [⟨1, some 2⟩, ⟨2, some 1⟩] = some [] :=
  ⟨(c3_amended [⟨1, some 2⟩, ⟨2, some 1⟩] 7).1,
   (c3_amended [⟨1, some 2⟩, ⟨2, some 1⟩] 7).2 (by decide)⟩

/-- A stage whose worker has a `Create` method never makes `startInstLoop`
panic. -/
theorem startInstLoop_ok_of_create (dR : Int) (stage : StageCfg) (i : Nat)
    (h : stage.hasCreate = true) :
    ∀ rem n st, ∃ st', startInstLoop dR stage i rem n st = Except.ok st' := by
  intro rem
  induction rem with
  | zero => exact fun n st => ⟨st, rfl⟩
  | succ r ih =>
    intro n st
    have hc : (if n ≠ 0 then callWorkerCreate stage else Except.ok ()) = Except.ok () := by
      by_cases hn : n = 0 <;> simp [hn, callWorkerCreate, h]
    simp only [startInstLoop, hc]
    exact ih (n + 1) _

/-- A stage with at most one instance never reaches `callWorkerCreate`. -/
theorem startInstLoop_ok_small (dR : Int) (stage : StageCfg) (i : Nat)
    (rem : Nat) (hrem : rem ≤ 1) (st : StartSt) :
    ∃ st', startInstLoop dR stage i rem 0 st = Except.ok st' := by
  interval_cases rem
  · exact ⟨st, rfl⟩
  · exact ⟨_, rfl⟩

/-- A stage with at least two instances and no `Create` method makes
`startInstLoop` panic with the Go panic message. -/
theorem startInstLoop_crash (dR : Int) (stage : StageCfg) (i : Nat)
    (h : stage.hasCreate = false) (rem : Nat) (hrem : 2 ≤ rem) (st : StartSt) :
    startInstLoop dR stage i rem 0 st = Except.error ⟨"worker need Create method"⟩ := by
  obtain ⟨r, rfl⟩ : ∃ r, rem = r + 2 := ⟨rem - 2, by omega⟩
  simp [startInstLoop, callWorkerCreate, h]

/-- The outer startup loop propagates the `callWorkerCreate` panic of the
first stage that has more than one instance but no `Create` method. -/
theorem startWorkersLoop_crash (dS dR : Int) (stage : StageCfg) (post : List StageCfg)
    (hsz : 2 ≤ (effectiveSize dS stage.size).toNat) (hnc : stage.hasCreate = false) :
    ∀ pre : List StageCfg,
      (∀ s ∈ pre, s.hasCreate = true ∨ (effectiveSize dS s.size).toNat ≤ 1) →
      ∀ i st, startWorkersLoop dS dR (pre ++ stage :: post) i st =
        Except.error ⟨"worker need Create method"⟩ := by
  intro pre
  induction pre with
  | nil =>
    intro _ i st
    have hcr := startInstLoop_crash dR stage i hnc (effectiveSize dS stage.size).toNat hsz st
    simp [startWorkersLoop, hcr]
  | cons s pre' ih =>
    intro hpre i st
    rcases hpre s (by simp) with hs | hs
    · obtain ⟨st', hok⟩ := startInstLoop_ok_of_create dR s i hs (effectiveSize dS s.size).toNat 0 st
      simp only [List.cons_append, startWorkersLoop, hok]
      exact ih (fun x hx => hpre x (by simp [hx])) (i + 1) st'
    · obtain ⟨st', hok⟩ := startInstLoop_ok_small dR s i (effectiveSize dS s.size).toNat hs st
      simp only [List.cons_append, startWorkersLoop, hok]
      exact ih (fun x hx => hpre x (by simp [hx])) (i + 1) st'

/-- Amended claim C4: a descriptor with effective instance count greater than
one whose worker lacks the `Create` capability does not produce a reported
configuration error — starting the run raises the runtime panic
`"worker need Create method"` (from `callWorkerCreate`) as soon as that
stage's second instance is started. -/
theorem c4_amended (dS dR : Int) (pre post : List StageCfg) (stage : StageCfg)
    (hpre : ∀ s ∈ pre, s.hasCreate = true ∨ (effectiveSize dS s.size).toNat ≤ 1)
    (hsz : 2 ≤ (effectiveSize dS stage.size).toNat)
    (hnc : stage.hasCreate = false) :
    startWorkers dS dR (pre ++ stage :: post) = Except.error ⟨"worker need Create method"⟩ :=
  startWorkersLoop_crash dS dR stage post hsz hnc pre hpre 0 ⟨[], 0, 1, []⟩

/-- Witness for the amended claim C4: a two-stage pipeline whose second stage
wants three instances without a `Create` method. -/
theorem c4_amended_witness :
    startWorkers 1 2 ([⟨0, 0, true⟩] ++ ⟨3, 0, false⟩ :: []) =
      Except.error ⟨"worker need Create method"⟩ :=
  c4_amended 1 2 [⟨0, 0, true⟩] [] ⟨3, 0, false⟩ (by decide) (by decide) (by decide)

/-- Invariant of the startup state: error-channel ids are below the
allocation counter, strictly increasing in start order, and `errChan` is the
id allocated by the most recent `Supervise` call. -/
def ErrChanInv (st : StartSt) : Prop :=
  (∀ x ∈ st.items.map SupItem.errChanId, x < st.nextId) ∧
  (st.items.map SupItem.errChanId).Pairwise (· < ·) ∧
  (st.items ≠ [] → (st.items.map SupItem.errChanId).getLast? = some st.errChan)

/-- One instance start preserves the error-channel invariant. -/
theorem errChanInv_step (st : StartSt) (i n : Nat) (rb : Int) (hinv : ErrChanInv st) :
    ErrChanInv { stopChans := st.stopChans ++ [st.nextId], errChan := st.nextId + 1,
                 nextId := st.nextId + 2,
                 items := st.items ++ [⟨i, n, st.nextId + 1, rb⟩] } := by
  obtain ⟨h1, h2, _⟩ := hinv
  refine ⟨?_, ?_, ?_⟩
  · intro x hx
    show x < st.nextId + 2
    rw [List.map_append] at hx
    rcases List.mem_append.mp hx with hx | hx
    · have := h1 x hx
      omega
    · simp at hx
      omega
  · rw [List.map_append, List.pairwise_append]
    refine ⟨h2, by simp, ?_⟩
    intro a ha b hb
    simp at hb
    subst hb
    have := h1 a ha
    omega
  · intro _
    rw [List.map_append]
    simp

/-- `startInstLoop` preserves the error-channel invariant. -/
theorem startInstLoop_inv (dR : Int) (stage : StageCfg) (i : Nat) :
    ∀ rem n st st', ErrChanInv st →
      startInstLoop dR stage i rem n st = Except.ok st' → ErrChanInv st' := by
  intro rem
  induction rem with
  | zero =>
    intro n st st' hinv h
    simp only [startInstLoop, Except.ok.injEq] at h
    exact h ▸ hinv
  | succ r ih =>
    intro n st st' hinv h
    cases hcw : (if n ≠ 0 then callWorkerCreate stage else Except.ok ()) with
    | error e =>
      simp only [startInstLoop, hcw] at h
      exact Except.noConfusion h
    | ok u =>
      simp only [startInstLoop, hcw] at h
      exact ih (n + 1) _ st' (errChanInv_step st i n _ hinv) h

/-- `startWorkersLoop` preserves the error-channel invariant. -/
theorem startWorkersLoop_inv (dS dR : Int) :
    ∀ stages i st st', ErrChanInv st →
      startWorkersLoop dS dR stages i st = Except.ok st' → ErrChanInv st' := by
  intro stages
  induction stages with
  | nil =>
    intro i st st' hinv h
    simp only [startWorkersLoop, Except.ok.injEq] at h
    exact h ▸ hinv
  | cons stage rest ih =>
    intro i st st' hinv h
    cases hcw : startInstLoop dR stage i (effectiveSize dS stage.size).toNat 0 st with
    | error e =>
      simp only [startWorkersLoop, hcw] at h
      exact Except.noConfusion h
    | ok st1 =>
      simp only [startWorkersLoop, hcw] at h
      exact ih (i + 1) st1 st' (startInstLoop_inv dR stage i _ 0 st st1 hinv hcw) h

/-- An element reported by `getLast?` is a member of the list. -/
theorem getLast?_mem_of_eq {l : List Nat} {a : Nat} (h : l.getLast? = some a) : a ∈ l := by
  obtain ⟨hne, rfl⟩ := List.mem_getLast?_eq_getLast (Option.mem_def.mpr h)
  exact List.getLast_mem hne

/-- In a strictly increasing list, no element before the last equals the
last element. -/
theorem pairwise_lt_ne_last :
    ∀ (l : List Nat) (a : Nat), l.Pairwise (· < ·) → l.getLast? = some a →
      ∀ j x, j + 1 < l.length → l[j]? = some x → x ≠ a := by
  intro l
  induction l with
  | nil => intro a _ h; simp at h
  | cons b l' ih =>
    intro a hp hlast j x hj hx
    rcases l' with _ | ⟨c, l''⟩
    · simp at hj
    · have hlast' : (c :: l'').getLast? = some a := by
        rwa [List.getLast?_cons_cons] at hlast
      have hp' : (c :: l'').Pairwise (· < ·) := (List.pairwise_cons.mp hp).2
      cases j with
      | zero =>
        have hxb : x = b := by
          simp at hx
          omega
        subst hxb
        have hmem : a ∈ c :: l'' := getLast?_mem_of_eq hlast'
        have hba : x < a := (List.pairwise_cons.mp hp).1 a hmem
        omega
      | succ k =>
        have hx' : (c :: l'')[k]? = some x := by simpa using hx
        exact ih a hp' hlast' k x (by simpa using hj) hx'

/-- Amended claim C2: every `Supervise` call does allocate a dedicated error
channel (all ids distinct), but the orchestrator's single `errChan` field
ends up holding exactly the channel of the last-started instance; every
earlier instance's channel differs from the one `Run`'s fatal-error wait
reads, so only exhaustion of the last-started instance can be received. -/
theorem c2_amended (dS dR : Int) (stages : List StageCfg) (st : StartSt)
    (h : startWorkers dS dR stages = Except.ok st) :
    (st.items.map SupItem.errChanId).Pairwise (· ≠ ·) ∧
    (st.items ≠ [] → (st.items.map SupItem.errChanId).getLast? = some st.errChan) ∧
    (∀ j x, j + 1 < st.items.length → (st.items.map SupItem.errChanId)[j]? = some x →
      x ≠ st.errChan) := by
  have h0 : ErrChanInv ⟨[], 0, 1, []⟩ := ⟨by simp, by simp, by simp⟩
  obtain ⟨h1, h2, h3⟩ := startWorkersLoop_inv dS dR stages 0 _ st h0 h
  refine ⟨h2.imp ne_of_lt, h3, ?_⟩
  intro j x hj hx
  have hne : st.items ≠ [] := by
    intro hnil
    rw [hnil] at hj
    simp at hj
  exact pairwise_lt_ne_last _ st.errChan h2 (h3 hne) j x
    (by simpa [List.length_map] using hj) hx

/-- Witness for the amended claim C2 on the two-instance run of
`c2_counterexample`: channels 2 and 4 are distinct, the retained channel is
the second instance's (id 4), and the first instance's channel is not the
retained one. -/
theorem c2_amended_witness :
    (([⟨0, 0, 2, 1⟩, ⟨1, 0, 4, 1⟩] : List SupItem).map SupItem.errChanId).Pairwise (· ≠ ·) ∧
    (([⟨0, 0, 2, 1⟩, ⟨1, 0, 4, 1⟩] : List SupItem).map SupItem.errChanId).getLast? = some 4 ∧
    (2 : Nat) ≠ 4 := by
  have H := c2_amended 1 1 [⟨0, 0, false⟩, ⟨0, 0, false⟩]
    ⟨[1, 3], 4, 5, [⟨0, 0, 2, 1⟩, ⟨1, 0, 4, 1⟩]⟩ rfl
  exact ⟨H.1, H.2.1 (by decide), H.2.2 0 2 (by decide) (by decide)⟩

/-- Closed form of the tail of the wiring loop from position `i ≥ 1` on, with
`j` positions left, previous out channel `p` and allocation counter `c`: a
chain of middle stages each taking the previous out channel and allocating a
fresh one, finished by the terminal stage which allocates nothing. -/
def chainTail : Option Nat → Nat → Nat → List LW
  | _, _, 0 => []
  | p, _, 1 => [⟨p, none⟩]
  | p, c, j + 2 => ⟨p, some c⟩ :: chainTail (some c) (c + 1) (j + 1)

/-- The wiring loop from any position `i ≥ 1` with `j = n - i` positions left
computes `chainTail`, allocating `j - 1` further channels. -/
theorem wireLoop_tail (n : Nat) :
    ∀ j i p c, 1 ≤ i → i + j = n →
      wireLoop n j i p c = (chainTail p c j, c + (j - 1)) := by
  intro j
  induction j using Nat.strong_induction_on with
  | _ j ih =>
    intro i p c hi hij
    rcases j with _ | j
    · simp [wireLoop, chainTail]
    rcases j with _ | j
    · have hi' : ¬i = 0 := by omega
      have hlast : i = n - 1 := by omega
      rw [wireLoop, if_neg hi', if_pos hlast]
      simp [wireLoop, chainTail]
    · have hi' : ¬i = 0 := by omega
      have hnl : ¬i = n - 1 := by omega
      rw [wireLoop, if_neg hi', if_neg hnl]
      rw [ih (j + 1) (by omega) (i + 1) (some c) (c + 1) (by omega) (by omega)]
      rw [chainTail]
      refine congrArg _ ?_
      omega

/-- `setupChannels` on a nonempty chain: the root stage gets channel `0` as
its out channel, the rest is the `chainTail` closed form. -/
theorem setupChannels_eq (n : Nat) (hn : 1 ≤ n) :
    setupChannels n = (⟨none, some 0⟩ :: chainTail (some 0) 1 (n - 1), 1 + (n - 1 - 1)) := by
  obtain ⟨m, rfl⟩ : ∃ m, n = m + 1 := ⟨n - 1, by omega⟩
  unfold setupChannels
  rw [wireLoop, if_pos rfl]
  rw [wireLoop_tail (m + 1) m 1 (some 0) 1 (by omega) (by omega)]
  simp

/-- Length of the `chainTail` closed form. -/
theorem chainTail_length : ∀ j p c, (chainTail p c j).length = j := by
  intro j
  induction j using Nat.strong_induction_on with
  | _ j ih =>
    intro p c
    rcases j with _ | j
    · simp [chainTail]
    rcases j with _ | j
    · simp [chainTail]
    · simp [chainTail, ih (j + 1) (by omega)]

/-- The first stage of a `chainTail` has the supplied previous out channel as
its in channel. -/
theorem chainTail_head_inp (j : Nat) (hj : 1 ≤ j) (p : Option Nat) (c : Nat) :
    ((chainTail p c j)[0]?).map LW.inp = some p := by
  rcases j with _ | j
  · omega
  rcases j with _ | j
  · simp [chainTail]
  · simp [chainTail]

/-- The last stage of a `chainTail` has no out channel. -/
theorem chainTail_last_out : ∀ j, 1 ≤ j → ∀ p c,
    ((chainTail p c j)[j - 1]?).map LW.out = some none := by
  intro j
  induction j using Nat.strong_induction_on with
  | _ j ih =>
    intro hj p c
    rcases j with _ | j
    · omega
    rcases j with _ | j
    · simp [chainTail]
    · have H := ih (j + 1) (by omega) (by omega) (some c) (c + 1)
      rw [show j + 1 + 1 - 1 = (j + 1 - 1) + 1 by omega]
      rw [chainTail]
      simpa using H

/-- Adjacent stages in a `chainTail` share a channel: the out channel of
stage `i` is channel `c + i` and equals the in channel of stage `i + 1`. -/
theorem chainTail_adj : ∀ j, ∀ p c i, i + 1 < j →
    ((chainTail p c j)[i]?).map LW.out = some (some (c + i)) ∧
    ((chainTail p c j)[i + 1]?).map LW.inp = some (some (c + i)) := by
  intro j
  induction j using Nat.strong_induction_on with
  | _ j ih =>
    intro p c i hij
    rcases j with _ | j
    · omega
    rcases j with _ | j
    · omega
    · cases i with
      | zero =>
        refine ⟨by simp [chainTail], ?_⟩
        have H := chainTail_head_inp (j + 1) (by omega) (some c) (c + 1)
        rw [chainTail]
        simpa using H
      | succ k =>
        have H := ih (j + 1) (by omega) (some c) (c + 1) k (by omega)
        have harith : c + 1 + k = c + (k + 1) := by omega
        rw [harith] at H
        refine ⟨?_, ?_⟩
        · rw [chainTail]
          simpa using H.1
        · rw [chainTail]
          simpa using H.2

/-- Amended claim C5: for every chain of `N ≥ 2` linked stages, wiring
allocates exactly `N - 1` channels, the root has no in channel, the terminal
stage has no out channel, and stage `i`'s out channel is channel `i`, which
is the same channel as stage `i + 1`'s in channel.  (For `N = 1` the claim
fails: see the counterexample.) -/
theorem c5_amended (n : Nat) (hn : 2 ≤ n) :
    (setupChannels n).1.length = n ∧
    (setupChannels n).2 = n - 1 ∧
    ((setupChannels n).1[0]?).map LW.inp = some none ∧
    ((setupChannels n).1[n - 1]?).map LW.out = some none ∧
    ∀ i, i + 1 < n →
      ((setupChannels n).1[i]?).map LW.out = some (some i) ∧
      ((setupChannels n).1[i + 1]?).map LW.inp = some (some i) := by
  rw [setupChannels_eq n (by omega)]
  refine ⟨?_, ?_, ?_, ?_, ?_⟩
  · simp [chainTail_length]
    omega
  · simp
    omega
  · simp
  · obtain ⟨m, rfl⟩ : ∃ m, n = m + 2 := ⟨n - 2, by omega⟩
    have H := chainTail_last_out (m + 1) (by omega) (some 0) 1
    rw [show m + 2 - 1 = (m + 1 - 1) + 1 by omega]
    simpa using H
  · intro i hi
    cases i with
    | zero =>
      refine ⟨by simp, ?_⟩
      have H := chainTail_head_inp (n - 1) (by omega) (some 0) 1
      simpa using H
    | succ k =>
      have H := chainTail_adj (n - 1) (some 0) 1 k (by omega)
      have harith : 1 + k = k + 1 := by omega
      rw [harith] at H
      exact ⟨by simpa using H.1, by simpa using H.2⟩

/-- Witness for the amended claim C5 on a three-stage chain. -/
theorem c5_amended_witness :
    2 ≤ 3 ∧
    (setupChannels 3).1.length = 3 ∧
    (setupChannels 3).2 = 3 - 1 ∧
    ((setupChannels 3).1[0]?).map LW.inp = some none ∧
    ((setupChannels 3).1[3 - 1]?).map LW.out = some none ∧
    ((setupChannels 3).1[1]?).map LW.out = some (some 1) ∧
    ((setupChannels 3).1[2]?).map LW.inp = some (some 1) := by
  have H := c5_amended 3 (by decide)
  exact ⟨by decide, H.1, H.2.1, H.2.2.1, H.2.2.2.1,
    (H.2.2.2.2 1 (by decide)).1, (H.2.2.2.2 1 (by decide)).2⟩

/-- The confirm-counted shutdown loop visits every stop channel, in order. -/
theorem ensureLoop_eq :
    ∀ (l : List Nat) (total confirm : Nat), confirm + l.length = total →
      ensureLoop total confirm l = l.flatMap workerStopBlock := by
  intro l
  induction l with
  | nil => intro total confirm _; simp [ensureLoop]
  | cons i rest ih =>
    intro total confirm h
    rcases rest with _ | ⟨r, rs⟩
    · have hc : confirm + 1 = total := by simpa using h
      simp [ensureLoop, hc]
    · have hne : ¬(confirm + 1 = total) := by
        simp only [List.length_cons] at h
        omega
      conv_lhs => rw [ensureLoop]
      rw [if_neg hne, ih total (confirm + 1) (by simp only [List.length_cons] at h ⊢; omega)]
      simp

/-- `ensureAllWorkerStopped` is the in-order concatenation of the
per-instance stop blocks. -/
theorem ensureAllWorkerStopped_eq (n : Nat) :
    ensureAllWorkerStopped n = (List.range n).flatMap workerStopBlock :=
  ensureLoop_eq (List.range n) n 0 (by simp)

/-- Counting events that occur once per stop block. -/
theorem countEv_flatMap_one (p : Ev → Bool) (hp : ∀ i, countEv p (workerStopBlock i) = 1) :
    ∀ l : List Nat, countEv p (l.flatMap workerStopBlock) = l.length := by
  intro l
  induction l with
  | nil => simp [countEv]
  | cons i rest ih =>
    simp only [List.flatMap_cons, countEv, List.countP_append, List.length_cons]
    have h1 := hp i
    simp only [countEv] at h1 ih
    omega

/-- Counting events that never occur in a stop block. -/
theorem countEv_flatMap_zero (p : Ev → Bool) (hp : ∀ i, countEv p (workerStopBlock i) = 0) :
    ∀ l : List Nat, countEv p (l.flatMap workerStopBlock) = 0 := by
  intro l
  induction l with
  | nil => simp [countEv]
  | cons i rest ih =>
    simp only [List.flatMap_cons, countEv, List.countP_append]
    have h1 := hp i
    simp only [countEv] at h1 ih
    omega

/-- Claim C6: for every termination cause and every number `n` of running
instances, shutdown walks the stop channels in creation order — the trace is
the in-order concatenation of per-instance blocks `stop; cleanup; ack`, so
each acknowledgment is awaited before the next stop request — issuing exactly
`n` stop requests and receiving exactly `n` acknowledgments, and the
completion callback occurs exactly once, as the very last event, after all
acknowledgments. -/
theorem c6_ordered_shutdown (cause : TermCause) (n : Nat) :
    ensureAllWorkerStopped n = (List.range n).flatMap workerStopBlock ∧
    countEv isStopReq (RunTrace cause n) = n ∧
    countEv isAck (RunTrace cause n) = n ∧
    countEv isCallback (RunTrace cause n) = 1 ∧
    (RunTrace cause n).getLast? = some Ev.callback := by
  have he := ensureAllWorkerStopped_eq n
  have hsel : ∀ p : Ev → Bool, p Ev.logErr = false → p Ev.logFatal = false →
      List.countP p (runSelectEvents cause) = 0 := by
    intro p h1 h2
    cases cause <;> simp [runSelectEvents, h1, h2]
  refine ⟨he, ?_, ?_, ?_, ?_⟩
  · have h1 := countEv_flatMap_one isStopReq (fun i => by simp [workerStopBlock, countEv, isStopReq]) (List.range n)
    simp only [countEv] at h1
    simp only [RunTrace, countEv, List.countP_append, he, h1]
    rw [hsel isStopReq rfl rfl]
    simp [isStopReq]
  · have h1 := countEv_flatMap_one isAck (fun i => by simp [workerStopBlock, countEv, isAck]) (List.range n)
    simp only [countEv] at h1
    simp only [RunTrace, countEv, List.countP_append, he, h1]
    rw [hsel isAck rfl rfl]
    simp [isAck]
  · have h1 := countEv_flatMap_zero isCallback (fun i => by simp [workerStopBlock, countEv, isCallback]) (List.range n)
    simp only [countEv] at h1
    simp only [RunTrace, countEv, List.countP_append, he, h1]
    rw [hsel isCallback rfl rfl]
    simp [isCallback]
  · show ((runSelectEvents cause ++ ensureAllWorkerStopped n) ++ [Ev.callback]).getLast? =
      some Ev.callback
    exact List.getLast?_concat _

/-- Splitting a root-loop run at a point where the loop has not yet reached a
quit outcome. -/
theorem rootLoop_append (th : Int) :
    ∀ (xs ys : List HEResult) (c : Int), (rootLoop th c xs).2.2 = false →
      rootLoop th c (xs ++ ys) =
        ((rootLoop th c xs).1 ++ (rootLoop th (rootLoop th c xs).2.1 ys).1,
         (rootLoop th (rootLoop th c xs).2.1 ys).2) := by
  intro xs
  induction xs with
  | nil =>
    intro ys c _
    simp [rootLoop]
  | cons x xs ih =>
    intro ys c hfl
    cases hb : (rootIter th c x).2.2 with
    | true =>
      exfalso
      simp only [rootLoop, hb] at hfl
      exact Bool.noConfusion hfl
    | false =>
      have hfl' : (rootLoop th (rootIter th c x).2.1 xs).2.2 = false := by
        simpa only [rootLoop, hb, Bool.false_eq_true, if_false] using hfl
      rw [List.cons_append]
      simp only [rootLoop, hb, Bool.false_eq_true, if_false]
      rw [ih ys (rootIter th c x).2.1 hfl']
      simp [List.append_assoc]

/-- The root loop on `k` no-data results below the threshold: one invocation
per result, no sleep, counter incremented each time. -/
theorem rootLoop_noData_run (th : Int) :
    ∀ (k : Nat) (c : Int), 0 ≤ c → c + k < th →
      rootLoop th c (List.replicate k ((none : Val), some GoErr.noData)) =
        (List.replicate k Ev.invoke, c + k, false) := by
  intro k
  induction k with
  | zero =>
    intro c _ _
    simp [rootLoop]
  | succ k ih =>
    intro c hc h
    have hlt : ¬(c + 1 ≥ th) := by
      push_cast at h
      omega
    have hstep : rootIter th c ((none : Val), some GoErr.noData) = ([Ev.invoke], c + 1, false) := by
      simp [rootIter, hlt]
    rw [List.replicate_succ]
    simp only [rootLoop, hstep]
    rw [ih (c + 1) (by omega) (by push_cast at h ⊢; omega)]
    have harith : c + 1 + (k : Int) = c + ((k + 1 : Nat) : Int) := by
      push_cast
      ring
    rw [harith]
    simp [List.replicate_succ]

/-- Claim C7: in the root loop, each no-data outcome increments the counter;
`k` consecutive no-data outcomes with `k` below the threshold never trigger
the backoff sleep and leave the counter at `k`, while the threshold-th
occurrence triggers exactly one sleep, at the last iteration, and resets the
counter to zero. -/
theorem c7_no_data_backoff (th : Int) (k : Nat) (hk : (k : Int) < th) :
    Ev.sleep ∉ (rootLoop th 0 (List.replicate k ((none : Val), some GoErr.noData))).1 ∧
    (rootLoop th 0 (List.replicate k ((none : Val), some GoErr.noData))).2.1 = k ∧
    ((k : Int) + 1 = th →
      rootLoop th 0 (List.replicate (k + 1) ((none : Val), some GoErr.noData)) =
        (List.replicate k Ev.invoke ++ [Ev.invoke, Ev.sleep], 0, false)) := by
  have hrun := rootLoop_noData_run th k 0 le_rfl (by omega)
  refine ⟨?_, ?_, ?_⟩
  · rw [hrun]
    intro hmem
    have := List.eq_of_mem_replicate hmem
    exact Ev.noConfusion this
  · rw [hrun]
    simp
  · intro hth
    have happ := rootLoop_append th (List.replicate k ((none : Val), some GoErr.noData))
      [((none : Val), some GoErr.noData)] 0 (by rw [hrun])
    rw [List.replicate_succ']
    rw [happ, hrun]
    have hstep : rootIter th (0 + (k : Int)) ((none : Val), some GoErr.noData) =
        ([Ev.invoke, Ev.sleep], 0, false) := by
      simp only [rootIter]
      rw [if_pos (by omega)]
    simp only [rootLoop, hstep]
    simp

/-- Witness for claim C7 at threshold 3 with 2 no-data outcomes. -/
theorem c7_no_data_backoff_witness :
    ((2 : Int) < 3) ∧
    Ev.sleep ∉ (rootLoop 3 0 (List.replicate 2 ((none : Val), some GoErr.noData))).1 ∧
    (rootLoop 3 0 (List.replicate 2 ((none : Val), some GoErr.noData))).2.1 = 2 ∧
    rootLoop 3 0 (List.replicate 3 ((none : Val), some GoErr.noData)) =
      (List.replicate 2 Ev.invoke ++ [Ev.invoke, Ev.sleep], 0, false) :=
  ⟨by decide, (c7_no_data_backoff 3 2 (by decide)).1, (c7_no_data_backoff 3 2 (by decide)).2.1,
    (c7_no_data_backoff 3 2 (by decide)).2.2 (by decide)⟩

/-- One root-loop iteration on a non-quit result: exactly one invocation,
no quit publication, no callback, and the loop keeps going. -/
theorem rootIter_noQuit (th c : Int) (r : HEResult) (hr : r.2 ≠ some GoErr.quit) :
    (rootIter th c r).2.2 = false ∧
    countEv isInvoke (rootIter th c r).1 = 1 ∧
    countEv isCallback (rootIter th c r).1 = 0 := by
  rcases r with ⟨v, e⟩
  rcases e with _ | ge
  · simp [rootIter, countEv, isInvoke, isCallback]
  · cases ge with
    | noData =>
      by_cases hth : c + 1 ≥ th <;>
        simp [rootIter, hth, countEv, isInvoke, isCallback]
    | quit => simp at hr
    | other => simp [rootIter, countEv, isInvoke, isCallback]

/-- The root loop over results that never include a quit outcome: one
invocation per result, no callback, and the loop has not reached the
blocked-for-stop state. -/
theorem rootLoop_noQuit (th : Int) :
    ∀ (rs : List HEResult) (c : Int), (∀ r ∈ rs, r.2 ≠ some GoErr.quit) →
      (rootLoop th c rs).2.2 = false ∧
      countEv isInvoke (rootLoop th c rs).1 = rs.length ∧
      countEv isCallback (rootLoop th c rs).1 = 0 := by
  intro rs
  induction rs with
  | nil => intro c _; simp [rootLoop, countEv]
  | cons r rest ih =>
    intro c h
    have hr := rootIter_noQuit th c r (h r (by simp))
    have ihh := ih (rootIter th c r).2.1 (fun x hx => h x (by simp [hx]))
    simp only [rootLoop, hr.1, Bool.false_eq_true, if_false]
    refine ⟨ihh.1, ?_, ?_⟩
    · simp only [countEv, List.countP_append, List.length_cons]
      have h1 := hr.2.1
      have h2 := ihh.2.1
      simp only [countEv] at h1 h2
      omega
    · simp only [countEv, List.countP_append]
      have h1 := hr.2.2
      have h2 := ihh.2.2
      simp only [countEv] at h1 h2
      omega

/-- Claim C8: when the root stage's transform returns the quit outcome after
a run of non-quit results `rs`, the loop publishes the quit signal as its
last event and then blocks awaiting a stop request (the quit signal alone
does not terminate the loop); the transform is invoked exactly
`rs.length + 1` times across the whole run — the results after the quit are
never invoked — and the run, receiving the quit notification without any
cancellation or OS signal, shuts down and ends with exactly one completion
callback as the final event. -/
theorem c8_quit_reaches_callback (th : Int) (rs rest : List HEResult) (n : Nat)
    (hq : ∀ r ∈ rs, r.2 ≠ some GoErr.quit) :
    (rootLoop th 0 (rs ++ ((none : Val), some GoErr.quit) :: rest)).2.2 = true ∧
    (rootLoop th 0 (rs ++ ((none : Val), some GoErr.quit) :: rest)).1.getLast? =
      some Ev.publishQuit ∧
    countEv isInvoke (quitRunTrace th (rs ++ ((none : Val), some GoErr.quit) :: rest) n) =
      rs.length + 1 ∧
    countEv isCallback (quitRunTrace th (rs ++ ((none : Val), some GoErr.quit) :: rest) n) = 1 ∧
    (quitRunTrace th (rs ++ ((none : Val), some GoErr.quit) :: rest) n).getLast? =
      some Ev.callback := by
  have hnq := rootLoop_noQuit th rs 0 hq
  have hquit : ∀ c : Int, rootLoop th c (((none : Val), some GoErr.quit) :: rest) =
      ([Ev.invoke, Ev.publishQuit], c, true) := by
    intro c
    simp [rootLoop, rootIter]
  have happ := rootLoop_append th rs (((none : Val), some GoErr.quit) :: rest) 0 hnq.1
  rw [hquit] at happ
  have hens0 : ∀ p : Ev → Bool, (∀ i, countEv p (workerStopBlock i) = 0) →
      List.countP p (ensureAllWorkerStopped n) = 0 := by
    intro p hp
    have := countEv_flatMap_zero p hp (List.range n)
    simpa only [countEv, ensureAllWorkerStopped_eq] using this
  refine ⟨by rw [happ], ?_, ?_, ?_, ?_⟩
  · rw [happ]
    rw [show (rootLoop th 0 rs).1 ++ [Ev.invoke, Ev.publishQuit] =
        ((rootLoop th 0 rs).1 ++ [Ev.invoke]) ++ [Ev.publishQuit] by simp]
    exact List.getLast?_concat _
  · simp only [quitRunTrace, RunTrace, runSelectEvents, countEv, List.countP_append, happ]
    have h1 := hnq.2.1
    simp only [countEv] at h1
    rw [hens0 isInvoke (fun i => by simp [workerStopBlock, countEv, isInvoke])]
    simp [isInvoke, h1]
  · simp only [quitRunTrace, RunTrace, runSelectEvents, countEv, List.countP_append, happ]
    have h1 := hnq.2.2
    simp only [countEv] at h1
    rw [hens0 isCallback (fun i => by simp [workerStopBlock, countEv, isCallback])]
    simp [isCallback, h1]
  · simp only [quitRunTrace, RunTrace]
    rw [← List.append_assoc]
    exact List.getLast?_concat _

/-- Witness for claim C8: a producer that emits one value and then quits, in
a two-instance run; the post-quit result list is nonempty and never
invoked. -/
theorem c8_quit_reaches_callback_witness :
    (rootLoop 100 0 ([((some 5 : Val), none)] ++ ((none : Val), some GoErr.quit) ::
      [((none : Val), some GoErr.noData)])).2.2 = true ∧
    (rootLoop 100 0 ([((some 5 : Val), none)] ++ ((none : Val), some GoErr.quit) ::
      [((none : Val), some GoErr.noData)])).1.getLast? = some Ev.publishQuit ∧
    countEv isInvoke (quitRunTrace 100 ([((some 5 : Val), none)] ++
      ((none : Val), some GoErr.quit) :: [((none : Val), some GoErr.noData)]) 2) = 2 ∧
    countEv isCallback (quitRunTrace 100 ([((some 5 : Val), none)] ++
      ((none : Val), some GoErr.quit) :: [((none : Val), some GoErr.noData)]) 2) = 1 ∧
    (quitRunTrace 100 ([((some 5 : Val), none)] ++ ((none : Val), some GoErr.quit) ::
      [((none : Val), some GoErr.noData)]) 2).getLast? = some Ev.callback :=
  c8_quit_reaches_callback 100 [((some 5 : Val), none)] [((none : Val), some GoErr.noData)] 2
    (by decide)

/-- `sentVals` distributes over event-list concatenation. -/
theorem sentVals_append (l1 l2 : List Ev) :
    sentVals (l1 ++ l2) = sentVals l1 ++ sentVals l2 := by
  simp [sentVals, List.filterMap_append]

/-- Claim C9: in the middle (pass-through) loop, every received input leads
to the transform's output being sent on the outbound channel unconditionally:
the sent values are exactly the outputs of the transform on the received
inputs (whether or not the transform also returned an error — an erroring
invocation still forwards its, possibly nil, output), one send per input. -/
theorem c9_middle_always_forwards (f : Val → HEResult) (inputs : List Val) :
    sentVals (middleLoop f inputs) = inputs.map (fun x => (f x).1) ∧
    countEv isSend (middleLoop f inputs) = inputs.length := by
  induction inputs with
  | nil => simp [middleLoop, sentVals, countEv]
  | cons x xs ih =>
    have hiter1 : sentVals (middleIter f x) = [(f x).1] := by
      by_cases h : ((f x).2).isSome <;> simp [middleIter, sentVals, h]
    have hiter2 : countEv isSend (middleIter f x) = 1 := by
      by_cases h : ((f x).2).isSome <;> simp [middleIter, countEv, isSend, h]
    have hcons : middleLoop f (x :: xs) = middleIter f x ++ middleLoop f xs := by
      simp [middleLoop]
    constructor
    · rw [hcons, sentVals_append, hiter1, ih.1]
      simp
    · rw [hcons]
      simp only [countEv, List.countP_append, List.length_cons]
      have h1 := hiter2
      have h2 := ih.2
      simp only [countEv] at h1 h2
      omega

end Gostage
